import Mathlib

/-!
Verification of the benchmark execution engine of `rust-cli-load-test`
(`project-2/benchmark/src/lib.rs` and `project-2/src/main.rs`).

The Rust code is shallowly embedded: the worker loop (`connection_task`),
the coordinator (`run`, its progress-drain loop and its join loop) and the
statistics pipeline (`calculate_statistic`, delegating to the `statrs`
crate) become executable Lean functions.  Machine integers (`u16`, `u64`)
are modelled as `Nat` (the counters involved — at most 65526 connections
and the per-connection request shares — never approach the word size, and
no claim is about wrap-around).  `f64` latencies are modelled exactly as
rationals (`ℚ`); the single square root of `calculate_statistic` lands in
`ℝ`.  A fallible `Requester.get` call is an `Except Unit ℕ` value, the
`Unit` error standing for `anyhow`'s transport error.  Wall-clock readings
(`Instant::now`, `Duration`) are replaced by an oracle giving each
request's latency in microseconds, exactly the value `as_micros` yields.
-/

namespace LoadTest

/-- One recorded request: `RequestSummary { latency, status_code }` from
`lib.rs`.  The latency is in microseconds (the integer that
`latency.as_micros()` produces), the status code is the raw `u16`. -/
structure RequestSummary where
  latency : ℕ
  status_code : ℕ
deriving DecidableEq, Repr

/-- `ConnectionSummary` from `lib.rs`: the per-worker counters and the
ordered outcome list. -/
structure ConnectionSummary where
  total_requests : ℕ
  success_requests : ℕ
  fail_requests : ℕ
  request_summaries : List RequestSummary
deriving DecidableEq, Repr

/-- A `Requester` is modelled by the sequence of results its successive
`get` calls return: `client i` is the result of the worker's `i`-th call.
`Except.error ()` stands for a transport error. -/
abbrev Client := ℕ → Except Unit ℕ

/-- Drop the first answer of a client / latency oracle: the stream seen by
the remainder of the loop after one call has been consumed. -/
def shiftStream {α : Type} (f : ℕ → α) : ℕ → α := fun i => f (i + 1)

/-- The batch threshold of `connection_task`: `if queue_stats >= 199`. -/
def batchThreshold : ℕ := 199

/-- The per-request bookkeeping of `connection_task`'s loop body: push the
`RequestSummary`, then `match status_code { 200 => success += 1, _ =>
fail += 1 }`, then `total_requests += 1`. -/
def pushOutcome (s : ConnectionSummary) (lat status : ℕ) : ConnectionSummary :=
  { total_requests := s.total_requests + 1
    success_requests :=
      if status = 200 then s.success_requests + 1 else s.success_requests
    fail_requests :=
      if status = 200 then s.fail_requests else s.fail_requests + 1
    request_summaries := s.request_summaries ++ [⟨lat, status⟩] }

/-- The loop of `connection_task` (`lib.rs` lines 189–221).  Arguments:
the remaining iteration count, the summary accumulated so far and the
current `queue_stats`.  Result: the worker's `anyhow::Result`, the list of
values sent on the progress channel (in send order: each full batch of
`batchThreshold`, the final partial flush if non-empty, then the `0`
sentinel from `stats.finish()`), and the number of `Requester.get` calls
made.  A transport error returns `Err` at once (`?`), so neither the
pending batch nor the sentinel is sent. -/
def connectionTaskGo (client : Client) (lat : ℕ → ℕ) :
    ℕ → ConnectionSummary → ℕ → Except Unit ConnectionSummary × List ℕ × ℕ
  | 0, s, q => (.ok s, (if 0 < q then [q] else []) ++ [0], 0)
  | r + 1, s, q =>
    match client 0 with
    | .error e => (.error e, [], 1)
    | .ok status =>
      let s' := pushOutcome s (lat 0) status
      if batchThreshold ≤ q + 1 then
        let rest := connectionTaskGo (shiftStream client) (shiftStream lat) r s' 0
        (rest.1, (q + 1) :: rest.2.1, rest.2.2 + 1)
      else
        let rest := connectionTaskGo (shiftStream client) (shiftStream lat) r s' (q + 1)
        (rest.1, rest.2.1, rest.2.2 + 1)

/-- `connection_task`: run the loop from the empty summary with
`queue_stats = 0` for `requests` iterations (`for _ in
0..conn_setting.requests`). -/
def connectionTask (client : Client) (lat : ℕ → ℕ) (requests : ℕ) :
    Except Unit ConnectionSummary × List ℕ × ℕ :=
  connectionTaskGo client lat requests ⟨0, 0, 0, []⟩ 0

/-- The progress-channel messages an error-free worker with `r` remaining
requests and pending batch `q` sends; `connectionTaskGo` produces exactly
this trace when every `get` succeeds. -/
def okTrace : ℕ → ℕ → List ℕ
  | 0, q => (if 0 < q then [q] else []) ++ [0]
  | r + 1, q =>
    if batchThreshold ≤ q + 1 then (q + 1) :: okTrace r 0
    else okTrace r (q + 1)

/-- The consumption loop of `run` (`lib.rs` lines 147–159).  `msgs` is the
sequence of channel messages still to be received, `closed` the current
`count_channel_closed`, `upd` the arguments passed to `process.update` so
far.  `none` models the loop blocking forever: the original sender handle
`tx` stays alive in `run`'s scope, so once all sent messages are consumed
`rx.recv().await` never completes.  `some upd` models the `break`,
returning every value that was fed to the progress callback. -/
def drainGo (conns : ℕ) : List ℕ → ℕ → List ℕ → Option (List ℕ)
  | [], _, _ => none
  | n :: rest, closed, upd =>
    let upd' := upd ++ [n]
    let closed' := if n = 0 then closed + 1 else closed
    if conns ≤ closed' then some upd' else drainGo conns rest closed' upd'

/-- `ConnectionSettings::from`: `requests / connections` (integer
division, remainder dropped). -/
def requestShare (connections requests : ℕ) : ℕ := requests / connections

/-- The worker spawned for connection `w` by `run`'s spawn loop. -/
def workerRun (clients : ℕ → Client) (lats : ℕ → ℕ → ℕ) (share w : ℕ) :
    Except Unit ConnectionSummary × List ℕ × ℕ :=
  connectionTask (clients w) (lats w) share

/-- Every message the `connections` workers put on the progress channel,
worker by worker.  The single consumer sees some interleaving of the
per-worker traces; the drain loop's behaviour examined below (termination,
sentinel count, positive-message sum) depends only on the multiset of
messages, so the canonical concatenation stands for every interleaving. -/
def allMessages (clients : ℕ → Client) (lats : ℕ → ℕ → ℕ) (conns share : ℕ) : List ℕ :=
  ((List.range conns).map (fun w => (workerRun clients lats share w).2.1)).flatten

/-- The join loop of `run` (`lib.rs` lines 163–169): await each worker in
spawn order, stopping at the first error (`?`), and collect the
summaries. -/
def collectResults {β : Type} : List (Except Unit β) → Except Unit (List β)
  | [] => .ok []
  | r :: rs => do
    let s ← r
    let ss ← collectResults rs
    .ok (s :: ss)

/-- `run` (`lib.rs` lines 129–175): spawn one worker per connection with
the shared request share, drain the progress channel until
`count_channel_closed >= connections`, then join the workers in spawn
order, propagating the first `Err` (`?`), and concatenate the summaries'
outcome lists (`combine_conn_summaries`).  `none` models `run` never
returning because the drain loop blocks forever; `some (.error ())` a
terminal error from the join loop; `some (.ok outcomes)` the
`BenchmarkResult.request_summaries` of a completed run. -/
def runModel (conns total : ℕ) (clients : ℕ → Client) (lats : ℕ → ℕ → ℕ) :
    Option (Except Unit (List RequestSummary)) :=
  let share := requestShare conns total
  match drainGo conns (allMessages clients lats conns share) 0 [] with
  | none => none
  | some _ =>
    some ((collectResults ((List.range conns).map (fun w => (workerRun clients lats share w).1))).map
      (fun ss => (ss.map ConnectionSummary.request_summaries).flatten))

/-!
The statistics pipeline of `project-2/src/main.rs`.  `calculate_statistic`
delegates to the `statrs` crate (an external dependency, vendored nowhere
in this repository), so the five `statrs` entry points it calls are
embedded from that library's implementation, which ports Math.NET
Numerics: streaming min/max/mean/variance over an iterator, and the R-8
(median-unbiased) quantile estimator `h = (n + 1/3)·τ + 1/3` with linear
interpolation between the two adjacent order statistics, clamped to the
extremes.  `f64` is modelled as `ℚ` (`f64::NAN` as `Option.none`, matching
the library's documented `NAN` results on empty / one-element input), and
`select_inplace`'s order statistics are read off the sorted permutation of
the data. -/

/-- `statrs` `Statistics::min`: a linear scan; `NAN` on empty data. -/
def statrsMin : List ℚ → Option ℚ
  | [] => none
  | x :: xs => some (xs.foldl min x)

/-- `statrs` `Statistics::max`: a linear scan; `NAN` on empty data. -/
def statrsMax : List ℚ → Option ℚ
  | [] => none
  | x :: xs => some (xs.foldl max x)

/-- One step of `statrs` `Statistics::mean`: `i += 1; mean += (x - mean) / i`. -/
def meanStep (p : ℚ × ℚ) (x : ℚ) : ℚ × ℚ := (p.1 + 1, p.2 + (x - p.2) / (p.1 + 1))

/-- `statrs` `Statistics::mean`: the streaming mean; `NAN` on empty data. -/
def statrsMean (xs : List ℚ) : Option ℚ :=
  if xs.isEmpty then none else some (xs.foldl meanStep (0, 0)).2

/-- One step of `statrs` `Statistics::variance` (the Math.NET streaming
recurrence): with `count` and running `sum` updated first, accumulate
`diff²/(count·(count-1))` where `diff = count·x - sum`. -/
def varStep (p : ℚ × ℚ × ℚ) (x : ℚ) : ℚ × ℚ × ℚ :=
  let c := p.1 + 1
  let t := p.2.1 + x
  let d := c * x - t
  (c, t, p.2.2 + d * d / (c * (c - 1)))

/-- `statrs` `Statistics::variance`: the Bessel-corrected streaming sample
variance, dividing the accumulated sum of squares by `count - 1`; `NAN`
(`none`) when the data has fewer than two entries. -/
def statrsVariance : List ℚ → Option ℚ
  | [] => none
  | [_] => none
  | x :: y :: xs =>
    let r := (y :: xs).foldl varStep (1, x, 0)
    some (r.2.2 / (r.1 - 1))

/-- The sorted copy of the data that `statrs::statistics::Data` reads its
order statistics from (`select_inplace` on `latencies.clone()`). -/
def sortedData (xs : List ℚ) : List ℚ := xs.insertionSort (· ≤ ·)

/-- `statrs` `OrderStatistics::quantile` on `Data` (the R-8 estimator, as
in Math.NET's `QuantileInplace`): `NAN` outside `0 ≤ τ ≤ 1` or on empty
data; otherwise with `h = (n + 1/3)·τ + 1/3` and `hf = ⌊h⌋` (the `h as
i64` truncation — `h > 0` here) return the minimum when `hf ≤ 0` or
`τ = 0`, the maximum when `hf ≥ n` or `τ = 1`, and otherwise interpolate
`a + (h - hf)·(b - a)` between the order statistics `a = sorted[hf-1]` and
`b = sorted[hf]`. -/
def statrsQuantile (xs : List ℚ) (tau : ℚ) : Option ℚ :=
  if xs.isEmpty ∨ tau < 0 ∨ 1 < tau then none
  else
    let n : ℕ := xs.length
    let s := sortedData xs
    let h : ℚ := ((n : ℚ) + 1 / 3) * tau + 1 / 3
    let hf : ℤ := ⌊h⌋
    if hf ≤ 0 ∨ tau = 0 then some (s.headD 0)
    else if (n : ℤ) ≤ hf ∨ tau = 1 then some (s.getLastD 0)
    else
      let a := s.getD (hf.toNat - 1) 0
      let b := s.getD hf.toNat 0
      some (a + (h - (hf : ℚ)) * (b - a))

/-- `statrs` `OrderStatistics::percentile(p)` = `quantile(p / 100)`. -/
def statrsPercentile (xs : List ℚ) (p : ℕ) : Option ℚ :=
  statrsQuantile xs ((p : ℚ) / 100)

/-- `StatusStatistics` from `main.rs`.  All `f64` fields are exact
rationals except `std`, whose square root lives in `ℝ`; a `none` field is
the `NAN` the corresponding `statrs` call produces. -/
structure StatusStatistics where
  status : ℕ
  requests : ℕ
  min : Option ℚ
  max : Option ℚ
  mean : Option ℚ
  std : Option ℝ
  p90 : Option ℚ
  p99 : Option ℚ

/-- `calculate_statistic` (`main.rs` lines 144–163): each statistic of the
microsecond latency group, divided by `1000` (µs → ms); `std` is
`variance().sqrt() / 1000`. -/
noncomputable def calculateStatistic (status : ℕ) (latencies : List ℚ) : StatusStatistics :=
  { status := status
    requests := latencies.length
    min := (statrsMin latencies).map (· / 1000)
    max := (statrsMax latencies).map (· / 1000)
    mean := (statrsMean latencies).map (· / 1000)
    std := (statrsVariance latencies).map (fun v : ℚ => Real.sqrt (v : ℝ) / 1000)
    p90 := (statrsPercentile latencies 90).map (· / 1000)
    p99 := (statrsPercentile latencies 99).map (· / 1000) }

/-- Modelled from the spec: the nearest-rank percentile the spec ascribes
to the aggregator — the sorted latency sequence indexed at
`⌊percentile_fraction · n⌋` clamped to `[0, n-1]`, no interpolation
("90th and 99th percentile via nearest-rank on the sorted latency
sequence using `index = floor(percentile_fraction * n)`, clamped to
`[0, n-1]`"). -/
def specNearestRank (xs : List ℚ) (tau : ℚ) : Option ℚ :=
  if xs.isEmpty then none
  else some ((sortedData xs).getD (Nat.min (⌊tau * (xs.length : ℚ)⌋.toNat) (xs.length - 1)) 0)

/-- Modelled from the spec: the population standard deviation the spec
ascribes to the aggregator — "population standard deviation (`sqrt(mean of
squared deviations)`)", denominator `n`, on the microsecond group. -/
noncomputable def specPopulationStd (xs : List ℚ) : ℝ :=
  Real.sqrt (((xs.map (fun x => (x - xs.sum / (xs.length : ℚ)) ^ 2)).sum : ℚ) / (xs.length : ℚ))

/-- The Bessel-corrected (sample) variance in closed form: sum of squared
deviations from the mean over `n - 1`. -/
def sampleVariance (xs : List ℚ) : ℚ :=
  (xs.map (fun x => (x - xs.sum / (xs.length : ℚ)) ^ 2)).sum / ((xs.length : ℚ) - 1)

/-- The two-term closed form `Σ x² - (Σ x)² / n` of the accumulated sum of
squared deviations, the quantity `statrs`'s streaming loop maintains. -/
def m2 (l : List ℚ) : ℚ := (l.map (fun x => x ^ 2)).sum - l.sum ^ 2 / (l.length : ℚ)

/-- The claim that the coordinator's progress callback is fed only
positive increments: no `0` ever appears among the arguments the drain
loop passes to `process.update`. -/
def drainUpdatesAllPositive (conns : ℕ) (msgs : List ℕ) : Prop :=
  ∀ u, drainGo conns msgs 0 [] = some u → (0 : ℕ) ∉ u

/-!  Helper lemmas about the worker loop and its progress-channel trace. -/

theorem sum_filter_pos : ∀ l : List ℕ, (l.filter (fun n => decide (0 < n))).sum = l.sum
  | [] => rfl
  | n :: l => by
    rcases Nat.eq_zero_or_pos n with h | h
    · subst h; simpa using sum_filter_pos l
    · simp [List.filter_cons, h, sum_filter_pos l]

theorem okTrace_sum (r : ℕ) : ∀ q, (okTrace r q).sum = q + r := by
  induction r with
  | zero =>
    intro q
    rcases Nat.eq_zero_or_pos q with h | h
    · simp [okTrace, h]
    · simp [okTrace, h]
  | succ r ih =>
    intro q
    by_cases h : batchThreshold ≤ q + 1 <;> simp [okTrace, h, ih] <;> omega

theorem okTrace_count_zero (r : ℕ) : ∀ q, (okTrace r q).count 0 = 1 := by
  induction r with
  | zero =>
    intro q
    rcases Nat.eq_zero_or_pos q with h | h
    · simp [okTrace, h]
    · have hq : q ≠ 0 := Nat.pos_iff_ne_zero.mp h
      simp [okTrace, h, List.count_cons, Ne.symm hq]
  | succ r ih =>
    intro q
    by_cases h : batchThreshold ≤ q + 1 <;> simp [okTrace, h, ih, List.count_cons]

theorem okTrace_concat_zero (r : ℕ) : ∀ q, ∃ t, okTrace r q = t ++ [0] := by
  induction r with
  | zero => intro q; exact ⟨if 0 < q then [q] else [], rfl⟩
  | succ r ih =>
    intro q
    by_cases h : batchThreshold ≤ q + 1
    · obtain ⟨t, ht⟩ := ih 0
      exact ⟨(q + 1) :: t, by simp [okTrace, h, ht]⟩
    · obtain ⟨t, ht⟩ := ih (q + 1)
      exact ⟨t, by simp [okTrace, h, ht]⟩

theorem connectionTaskGo_ok_spec (r : ℕ) (client : Client) (f lat : ℕ → ℕ)
    (s : ConnectionSummary) (q : ℕ) (h : ∀ i, i < r → client i = .ok (f i)) :
    connectionTaskGo client lat r s q =
      (.ok { total_requests := s.total_requests + r
             success_requests :=
               s.success_requests + (List.range r).countP (fun i => f i == 200)
             fail_requests :=
               s.fail_requests + (List.range r).countP (fun i => !(f i == 200))
             request_summaries := s.request_summaries ++
               (List.range r).map (fun i => RequestSummary.mk (lat i) (f i)) },
       okTrace r q, r) := by
  induction r generalizing client f lat s q with
  | zero => simp [connectionTaskGo, okTrace]
  | succ r ih =>
    have h0 : client 0 = .ok (f 0) := h 0 (Nat.succ_pos r)
    have hsh : ∀ i, i < r → shiftStream client i = .ok (shiftStream f i) :=
      fun i hi => h (i + 1) (by omega)
    have ihq := fun q' => ih (shiftStream client) (shiftStream f) (shiftStream lat)
      (pushOutcome s (lat 0) (f 0)) q' hsh
    have hc1 : ((fun i => f i == 200) ∘ Nat.succ) = (fun i => shiftStream f i == 200) := rfl
    have hc2 : ((fun i => !(f i == 200)) ∘ Nat.succ) = (fun i => !(shiftStream f i == 200)) := rfl
    have hc3 : ((fun i => RequestSummary.mk (lat i) (f i)) ∘ Nat.succ) =
      (fun i => RequestSummary.mk (shiftStream lat i) (shiftStream f i)) := rfl
    have hsummary : pushOutcome s (lat 0) (f 0) = pushOutcome s (lat 0) (f 0) := rfl
    by_cases hq : batchThreshold ≤ q + 1 <;>
      simp only [connectionTaskGo, h0, hq, if_true, if_false, ihq] <;>
      refine Prod.ext ?_ (Prod.ext (by simp [okTrace, hq]) (by simp)) <;>
      simp only [Except.ok.injEq, ConnectionSummary.mk.injEq, pushOutcome] <;>
      refine ⟨by omega, ?_, ?_, ?_⟩ <;>
      simp only [List.range_succ_eq_map, List.countP_cons, List.countP_map, List.map_cons,
        List.map_map, hc1, hc2, hc3] <;>
      by_cases h200 : f 0 = 200 <;>
      simp [h200, List.append_assoc] <;>
      omega

theorem connectionTaskGo_error_no_sentinel (r : ℕ) (client : Client) (lat : ℕ → ℕ)
    (s : ConnectionSummary) (q : ℕ) (e : Unit)
    (herr : (connectionTaskGo client lat r s q).1 = .error e) :
    ((connectionTaskGo client lat r s q).2.1).count 0 = 0 := by
  induction r generalizing client lat s q with
  | zero => simp [connectionTaskGo] at herr
  | succ r ih =>
    cases hc : client 0 with
    | error e' => simp [connectionTaskGo, hc]
    | ok status =>
      by_cases hq : batchThreshold ≤ q + 1 <;>
        simp only [connectionTaskGo, hc, hq, if_true, if_false] at herr ⊢
      · rw [List.count_cons]
        have : ¬ ((0 : ℕ) = q + 1) := by omega
        simp [ih _ _ _ _ herr, this]
      · exact ih _ _ _ _ herr

theorem connectionTaskGo_count_zero_le_one (r : ℕ) (client : Client) (lat : ℕ → ℕ)
    (s : ConnectionSummary) (q : ℕ) :
    ((connectionTaskGo client lat r s q).2.1).count 0 ≤ 1 := by
  induction r generalizing client lat s q with
  | zero =>
    rcases Nat.eq_zero_or_pos q with h | h
    · simp [connectionTaskGo, h]
    · have hq : q ≠ 0 := Nat.pos_iff_ne_zero.mp h
      simp [connectionTaskGo, h, List.count_cons, Ne.symm hq]
  | succ r ih =>
    cases hc : client 0 with
    | error e' => simp [connectionTaskGo, hc]
    | ok status =>
      by_cases hq : batchThreshold ≤ q + 1 <;>
        simp only [connectionTaskGo, hc, hq, if_true, if_false]
      · rw [List.count_cons]
        have : ¬ ((0 : ℕ) = q + 1) := by omega
        simpa [this] using ih (shiftStream client) (shiftStream lat) (pushOutcome s (lat 0) status) 0
      · exact ih _ _ _ _

/-!  Helper lemmas about the coordinator's progress-drain loop. -/

theorem drainGo_some_zeros (conns : ℕ) :
    ∀ (msgs : List ℕ) (closed : ℕ) (upd u : List ℕ),
    drainGo conns msgs closed upd = some u → conns ≤ closed + msgs.count 0 := by
  intro msgs
  induction msgs with
  | nil => intro closed upd u h; simp [drainGo] at h
  | cons n rest ih =>
    intro closed upd u h
    simp only [drainGo] at h
    by_cases hn : n = 0
    · subst hn
      simp only [if_true] at h
      rw [List.count_cons]
      split at h
      · simp
        omega
      · have := ih _ _ _ h
        simp
        omega
    · simp only [hn, if_false] at h
      rw [List.count_cons]
      split at h
      · simp [Ne.symm hn]; omega
      · have := ih _ _ _ h
        simp [Ne.symm hn]
        omega

theorem drainGo_none_of_count_lt (conns : ℕ) (msgs : List ℕ)
    (h : msgs.count 0 < conns) : drainGo conns msgs 0 [] = none := by
  cases hd : drainGo conns msgs 0 [] with
  | none => rfl
  | some u =>
    have := drainGo_some_zeros conns msgs 0 [] u hd
    omega

theorem drainGo_isSome_of_count (conns : ℕ) :
    ∀ (msgs : List ℕ) (closed : ℕ) (upd : List ℕ),
    closed < conns → conns ≤ closed + msgs.count 0 →
    (drainGo conns msgs closed upd).isSome := by
  intro msgs
  induction msgs with
  | nil => intro closed upd h1 h2; simp at h2; omega
  | cons n rest ih =>
    intro closed upd h1 h2
    simp only [drainGo]
    by_cases hn : n = 0
    · subst hn
      simp only [if_true]
      split
      · simp
      · rename_i hcl
        refine ih (closed + 1) _ (by omega) ?_
        rw [List.count_cons] at h2
        simp at h2
        omega
    · simp only [hn, if_false]
      split
      · simp
      · rename_i hcl
        refine ih closed _ (by omega) ?_
        rw [List.count_cons] at h2
        simp [hn, Ne.symm hn] at h2
        omega

theorem drainGo_some_spec (conns : ℕ) :
    ∀ (msgs : List ℕ) (closed : ℕ) (upd u : List ℕ),
    closed < conns → drainGo conns msgs closed upd = some u →
    ∃ t rest, msgs = t ++ rest ∧ u = upd ++ t ∧ closed + t.count 0 = conns ∧
      ∃ t', t = t' ++ [0] := by
  intro msgs
  induction msgs with
  | nil => intro closed upd u _ h; simp [drainGo] at h
  | cons n rest ih =>
    intro closed upd u hcl h
    simp only [drainGo] at h
    by_cases hn : n = 0
    · subst hn
      simp only [if_true] at h
      split at h
      · rename_i hstop
        have hu : u = upd ++ [0] := (Option.some.inj h).symm
        exact ⟨[0], rest, by simp, hu, by simp; omega, [], by simp⟩
      · rename_i hstop
        obtain ⟨t, rest', hm, hu, hcount, t', ht'⟩ := ih (closed + 1) _ u (by omega) h
        exact ⟨0 :: t, rest', by simp [hm], by simp [hu], by simp [List.count_cons] at hcount ⊢; omega,
          0 :: t', by simp [ht']⟩
    · simp only [hn, if_false] at h
      split at h
      · omega
      · obtain ⟨t, rest', hm, hu, hcount, t', ht'⟩ := ih closed _ u hcl h
        refine ⟨n :: t, rest', by simp [hm], by simp [hu], ?_, n :: t', by simp [ht']⟩
        rw [List.count_cons]
        simp [hn, Ne.symm hn]
        omega

/-!  Helper lemmas at the `run` level. -/

theorem sum_map_le_card (n : ℕ) (c : ℕ → ℕ) (hc : ∀ w, c w ≤ 1) :
    ((List.range n).map c).sum ≤ n := by
  induction n with
  | zero => simp
  | succ n ih =>
    rw [List.range_succ, List.map_append, List.sum_append]
    have := hc n
    simp only [List.map_cons, List.map_nil, List.sum_cons, List.sum_nil]
    omega

theorem sum_map_lt_card (n : ℕ) (c : ℕ → ℕ) (hc : ∀ w, c w ≤ 1) (w0 : ℕ)
    (hw0 : w0 < n) (h0 : c w0 = 0) : ((List.range n).map c).sum < n := by
  induction n with
  | zero => omega
  | succ n ih =>
    rw [List.range_succ, List.map_append, List.sum_append]
    simp only [List.map_cons, List.map_nil, List.sum_cons, List.sum_nil]
    rcases Nat.lt_succ_iff_lt_or_eq.mp hw0 with h | h
    · have := ih h
      have := hc n
      omega
    · have h1 := sum_map_le_card n c hc
      rw [h] at h0
      omega

theorem collectResults_ok {β : Type} (g : ℕ → Except Unit β) (f : ℕ → β) :
    ∀ l : List ℕ, (∀ a ∈ l, g a = .ok (f a)) → collectResults (l.map g) = .ok (l.map f)
  | [], _ => rfl
  | a :: l, h => by
    have ha : g a = .ok (f a) := h a (by simp)
    have hl := collectResults_ok g f l (fun b hb => h b (by simp [hb]))
    simp only [List.map_cons, collectResults, ha, hl]
    rfl

/-- The full outcome of an error-free worker: `connectionTaskGo_ok_spec`
specialised to `workerRun`'s initial state. -/
theorem workerRun_ok_spec (clients : ℕ → Client) (f : ℕ → ℕ → ℕ) (lats : ℕ → ℕ → ℕ)
    (share w : ℕ) (hok : ∀ i, i < share → clients w i = .ok (f w i)) :
    workerRun clients lats share w =
      (.ok { total_requests := share
             success_requests := (List.range share).countP (fun i => f w i == 200)
             fail_requests := (List.range share).countP (fun i => !(f w i == 200))
             request_summaries :=
               (List.range share).map (fun i => RequestSummary.mk (lats w i) (f w i)) },
       okTrace share 0, share) := by
  have := connectionTaskGo_ok_spec share (clients w) (f w) (lats w) ⟨0, 0, 0, []⟩ 0 hok
  simpa [workerRun, connectionTask] using this

/-- Invariant preservation along the worker loop: whenever the loop
returns `Ok`, the final counters extend the initial ones in lock-step. -/
theorem connectionTaskGo_invariant (r : ℕ) (client : Client) (lat : ℕ → ℕ)
    (s0 : ConnectionSummary) (q : ℕ) (s : ConnectionSummary)
    (h : (connectionTaskGo client lat r s0 q).1 = .ok s) :
    s.total_requests = s0.total_requests + r ∧
    s.success_requests + s.fail_requests = s0.success_requests + s0.fail_requests + r ∧
    s.request_summaries.length = s0.request_summaries.length + r := by
  induction r generalizing client lat s0 q with
  | zero =>
    have : s = s0 := by simpa [connectionTaskGo] using h.symm
    subst this
    simp
  | succ r ih =>
    cases hc : client 0 with
    | error e' => simp [connectionTaskGo, hc] at h
    | ok status =>
      by_cases hq : batchThreshold ≤ q + 1 <;>
        simp only [connectionTaskGo, hc, hq, if_true, if_false] at h <;>
        have := ih _ _ _ _ h <;>
        rcases this with ⟨h1, h2, h3⟩ <;>
        constructor <;>
        simp only [pushOutcome, List.length_append, List.length_cons, List.length_nil] at h1 h2 h3 <;>
        first
          | omega
          | (constructor <;> first
              | omega
              | (by_cases h200 : status = 200 <;> simp [h200] at h1 h2 h3 ⊢ <;> omega))

/-- C1: the spec ("all three kinds abort the entire benchmark run … the
caller receives a single terminal error") is the intent, but the code
hangs instead: a worker whose `Requester` call fails returns through `?`
before `stats.finish()` runs, so its `0` sentinel is never sent, while
`run` keeps the original sender handle `tx` alive; the drain loop
therefore waits forever for `connections` sentinels and `run` never
reaches the error-propagating join code.  The model returns `none`
(non-termination), not a terminal error. -/
theorem run_hangs_on_transport_error (conns total : ℕ) (clients : ℕ → Client)
    (lats : ℕ → ℕ → ℕ) (w0 : ℕ) (hw0 : w0 < conns) (e : Unit)
    (herr : (workerRun clients lats (requestShare conns total) w0).1 = .error e) :
    runModel conns total clients lats = none := by
  have hcount : (allMessages clients lats conns (requestShare conns total)).count 0 < conns := by
    rw [allMessages, List.count_flatten, List.map_map]
    refine sum_map_lt_card conns _ (fun w => ?_) w0 hw0 ?_
    · exact connectionTaskGo_count_zero_le_one (requestShare conns total)
        (clients w) (lats w) ⟨0, 0, 0, []⟩ 0
    · exact connectionTaskGo_error_no_sentinel (requestShare conns total)
        (clients w0) (lats w0) ⟨0, 0, 0, []⟩ 0 e herr
  have hd := drainGo_none_of_count_lt conns _ hcount
  simp [runModel, hd]

theorem run_hangs_on_transport_error_witness :
    runModel 2 2 (fun w _ => if w = 0 then Except.ok 200 else Except.error ())
      (fun _ _ => 1) = none :=
  run_hangs_on_transport_error 2 2
    (fun w _ => if w = 0 then Except.ok 200 else Except.error ())
    (fun _ _ => 1) 1 (by omega) () (by rfl)

/-- C2 counterexample: the claim says every status `< 400` increments the
success count, but the worker counts only the exact status `200` as a
success — a single request answered `204` (which is `< 400`) yields
`success_requests = 0`, `fail_requests = 1`. -/
theorem status_204_counted_failure :
    (connectionTask (fun _ => Except.ok 204) (fun _ => 0) 1).1 =
      .ok { total_requests := 1, success_requests := 0, fail_requests := 1,
            request_summaries := [⟨0, 204⟩] } ∧ 204 < 400 :=
  ⟨rfl, by norm_num⟩

/-- The outcome of a worker whose `Requester` constantly answers a fixed
status code. -/
theorem worker_const_status_spec (N status : ℕ) (lat : ℕ → ℕ) :
    (connectionTask (fun _ => Except.ok status) lat N).1 = .ok
      { total_requests := N
        success_requests := if status = 200 then N else 0
        fail_requests := if status = 200 then 0 else N
        request_summaries := (List.range N).map (fun i => RequestSummary.mk (lat i) status) } := by
  have h := connectionTaskGo_ok_spec N (fun _ => Except.ok status) (fun _ => status) lat
    ⟨0, 0, 0, []⟩ 0 (fun i _ => rfl)
  rw [connectionTask, h]
  by_cases h200 : status = 200
  · have hb : (status == 200) = true := by simp [h200]
    simp [h200, hb, List.countP_true, List.countP_false]
  · have hb : (status == 200) = false := by simp [h200]
    simp [h200, hb, List.countP_true, List.countP_false]

/-- C2 (amended): a completed request increments the success count exactly
when its status code is `200` (any other status, including `2xx`/`3xx`
codes below `400`, increments the failure count), and the raw status code
is preserved unmodified in the recorded `RequestSummary`. -/
theorem worker_success_iff_200 (N status : ℕ) (lat : ℕ → ℕ) :
    (connectionTask (fun _ => Except.ok status) lat N).1 = .ok
      { total_requests := N
        success_requests := if status = 200 then N else 0
        fail_requests := if status = 200 then 0 else N
        request_summaries := (List.range N).map (fun i => RequestSummary.mk (lat i) status) } :=
  worker_const_status_spec N status lat

/-- C8: a worker with `request_count = N` whose `Requester` always returns
`200` yields `Ok` with `success_requests = N`, `fail_requests = 0` and
exactly `N` recorded outcomes; with constant `500` it yields
`success_requests = 0`, `fail_requests = N`. -/
theorem worker_const_200_and_500 (N : ℕ) (lat : ℕ → ℕ) :
    (connectionTask (fun _ => Except.ok 200) lat N).1 = .ok
      { total_requests := N, success_requests := N, fail_requests := 0,
        request_summaries := (List.range N).map (fun i => RequestSummary.mk (lat i) 200) } ∧
    ((List.range N).map (fun i => RequestSummary.mk (lat i) 200)).length = N ∧
    (connectionTask (fun _ => Except.ok 500) lat N).1 = .ok
      { total_requests := N, success_requests := 0, fail_requests := N,
        request_summaries := (List.range N).map (fun i => RequestSummary.mk (lat i) 500) } := by
  refine ⟨?_, by simp, ?_⟩
  · have h := worker_const_status_spec N 200 lat
    simpa using h
  · have h := worker_const_status_spec N 500 lat
    simpa using h

/-- C10: whenever the worker loop returns `Ok`, the summary satisfies
`success_requests + fail_requests = total_requests =
request_summaries.length = request_count`: the counters and the outcome
list advance in lock-step, once per completed request. -/
theorem worker_summary_invariant (client : Client) (lat : ℕ → ℕ) (r : ℕ)
    (s : ConnectionSummary) (h : (connectionTask client lat r).1 = .ok s) :
    s.success_requests + s.fail_requests = s.total_requests ∧
    s.total_requests = s.request_summaries.length ∧
    s.total_requests = r := by
  have := connectionTaskGo_invariant r client lat ⟨0, 0, 0, []⟩ 0 s h
  simp only [List.length_nil] at this
  omega

theorem worker_summary_invariant_witness :
    (2 : ℕ) + 1 = 3 ∧ (3 : ℕ) = ([⟨0, 200⟩, ⟨0, 204⟩, ⟨0, 200⟩] : List RequestSummary).length ∧
      (3 : ℕ) = 3 := by
  have h := worker_summary_invariant
    (fun i => Except.ok (if i = 1 then 204 else 200)) (fun _ => 0) 3
    { total_requests := 3, success_requests := 2, fail_requests := 1,
      request_summaries := [⟨0, 200⟩, ⟨0, 204⟩, ⟨0, 200⟩] } (by rfl)
  exact h

/-- C7 counterexample: with one connection whose share is `0` requests the
only channel message is the `0` sentinel, and the drain loop still calls
`process.update(0)` — `update` is not reserved for positive batch
counts. -/
theorem drain_updates_zero_counterexample :
    ¬ drainUpdatesAllPositive 1
      (allMessages (fun _ _ => Except.ok 200) (fun _ _ => 0) 1 (requestShare 1 0)) := by
  intro h
  have := h [0] (by rfl)
  simp at this

/-- C7 (amended): the drain loop passes every received message to the
progress callback's `update`, including each `0` sentinel; a `0`
additionally increments the workers-finished counter, and the loop
terminates exactly on receiving the `connection_count`-th sentinel (so the
consumed prefix ends with a `0` and contains `connection_count` zeros). -/
theorem drain_updates_spec (conns : ℕ) (msgs u : List ℕ) (hc : 1 ≤ conns)
    (h : drainGo conns msgs 0 [] = some u) :
    (∃ rest, msgs = u ++ rest) ∧ u.count 0 = conns ∧ ∃ u', u = u' ++ [0] := by
  obtain ⟨t, rest, hm, hu, hcount, t', ht'⟩ :=
    drainGo_some_spec conns msgs 0 [] u (by omega) h
  simp only [List.nil_append] at hu
  subst hu
  exact ⟨⟨rest, hm⟩, by omega, ⟨t', ht'⟩⟩

theorem drain_updates_spec_witness :
    ((∃ rest, [3, 0] = [3, 0] ++ rest) ∧ ([3, 0] : List ℕ).count 0 = 1 ∧
      ∃ u', ([3, 0] : List ℕ) = u' ++ [0]) :=
  drain_updates_spec 1 [3, 0] [3, 0] (by omega) (by rfl)

/-- Sentinel count and message total of an error-free run's channel
traffic. -/
theorem allMessages_ok_facts (conns share : ℕ) (clients : ℕ → Client) (f lats : ℕ → ℕ → ℕ)
    (hok : ∀ w i, i < share → clients w i = .ok (f w i)) :
    (allMessages clients lats conns share).count 0 = conns ∧
    (allMessages clients lats conns share).sum = conns * share := by
  have hw := fun w => workerRun_ok_spec clients f lats share w (fun i hi => hok w i hi)
  constructor
  · rw [allMessages, List.count_flatten, List.map_map]
    have heq : ((List.range conns).map
          (List.count 0 ∘ fun w => (workerRun clients lats share w).2.1))
        = (List.range conns).map (fun _ => 1) := by
      refine List.map_congr_left fun w _ => ?_
      simp [Function.comp, hw w, okTrace_count_zero]
    rw [heq, List.map_const']
    simp [List.sum_replicate]
  · rw [allMessages, List.sum_flatten, List.map_map]
    have heq : ((List.range conns).map
          (List.sum ∘ fun w => (workerRun clients lats share w).2.1))
        = (List.range conns).map (fun _ => share) := by
      refine List.map_congr_left fun w _ => ?_
      simp [Function.comp, hw w, okTrace_sum]
    rw [heq, List.map_const']
    simp [List.sum_replicate]

/-- C3: an error-free run issues exactly
`connection_count * (total_requests / connection_count)` requests (the
remainder of the integer division is never issued), and
`BenchmarkResult`'s outcome list — the concatenation of all workers'
outcome lists — has exactly that many entries. -/
theorem run_request_accounting (conns total : ℕ) (hc : 1 ≤ conns)
    (clients : ℕ → Client) (f : ℕ → ℕ → ℕ) (lats : ℕ → ℕ → ℕ)
    (hok : ∀ w i, clients w i = .ok (f w i)) :
    ∃ outcomes : List RequestSummary,
      runModel conns total clients lats = some (.ok outcomes) ∧
      outcomes.length = conns * requestShare conns total ∧
      ((List.range conns).map
        (fun w => (workerRun clients lats (requestShare conns total) w).2.2)).sum
        = conns * requestShare conns total := by
  set share := requestShare conns total with hshare
  have hw := fun w => workerRun_ok_spec clients f lats share w (fun i _ => hok w i)
  obtain ⟨hcnt, -⟩ := allMessages_ok_facts conns share clients f lats (fun w i _ => hok w i)
  have hsome : (drainGo conns (allMessages clients lats conns share) 0 []).isSome :=
    drainGo_isSome_of_count conns _ 0 [] (by omega) (by rw [hcnt]; omega)
  obtain ⟨u, hu⟩ := Option.isSome_iff_exists.mp hsome
  have hcol := collectResults_ok (fun w => (workerRun clients lats share w).1)
    (fun w => ConnectionSummary.mk share
      ((List.range share).countP (fun i => f w i == 200))
      ((List.range share).countP (fun i => !(f w i == 200)))
      ((List.range share).map (fun i => RequestSummary.mk (lats w i) (f w i))))
    (List.range conns) (fun w _ => by
      show (workerRun clients lats share w).1 = _
      rw [hw w])
  have hrun : runModel conns total clients lats =
      some (.ok (((List.range conns).map (fun w =>
        (List.range share).map (fun i => RequestSummary.mk (lats w i) (f w i)))).flatten)) := by
    simp only [runModel, ← hshare, hu, hcol, Except.map, List.map_map]
    congr 1
  refine ⟨_, hrun, ?_, ?_⟩
  · rw [List.length_flatten, List.map_map]
    have heq : ((List.range conns).map (List.length ∘ fun w =>
          (List.range share).map (fun i => RequestSummary.mk (lats w i) (f w i))))
        = (List.range conns).map (fun _ => share) := by
      refine List.map_congr_left fun w _ => ?_
      simp [Function.comp]
    rw [heq, List.map_const']
    simp [List.sum_replicate, mul_comm]
  · have heq : ((List.range conns).map (fun w => (workerRun clients lats share w).2.2))
        = (List.range conns).map (fun _ => share) := by
      refine List.map_congr_left fun w _ => ?_
      rw [hw w]
    rw [heq, List.map_const']
    simp [List.sum_replicate, mul_comm]

theorem run_request_accounting_witness :
    ∃ outcomes : List RequestSummary,
      runModel 2 5 (fun _ _ => Except.ok 200) (fun _ _ => 1) = some (.ok outcomes) ∧
      outcomes.length = 2 * requestShare 2 5 ∧
      ((List.range 2).map
        (fun w => (workerRun (fun _ _ => Except.ok 200) (fun _ _ => 1) (requestShare 2 5) w).2.2)).sum
        = 2 * requestShare 2 5 :=
  run_request_accounting 2 5 (by omega) (fun _ _ => Except.ok 200) (fun _ _ => 200)
    (fun _ _ => 1) (fun _ _ => rfl)

/-- C6: in an error-free run the positive batch messages sum, over all
workers, to `connection_count * (total_requests / connection_count)` and
exactly `connection_count` terminal `0` sentinels are sent, so their
total is `connection_count * (total_requests / connection_count) +
connection_count`; per worker, the positive messages sum to its request
share, exactly one sentinel is sent, and it comes after all batches. -/
theorem progress_channel_accounting (conns total : ℕ) (_hc : 1 ≤ conns)
    (clients : ℕ → Client) (f : ℕ → ℕ → ℕ) (lats : ℕ → ℕ → ℕ)
    (hok : ∀ w i, clients w i = .ok (f w i)) :
    ((allMessages clients lats conns (requestShare conns total)).filter
        (fun n => decide (0 < n))).sum
      + (allMessages clients lats conns (requestShare conns total)).count 0
      = conns * requestShare conns total + conns ∧
    ∀ w, w < conns →
      (((workerRun clients lats (requestShare conns total) w).2.1).filter
          (fun n => decide (0 < n))).sum = requestShare conns total ∧
      ((workerRun clients lats (requestShare conns total) w).2.1).count 0 = 1 ∧
      ∃ t, (workerRun clients lats (requestShare conns total) w).2.1 = t ++ [0] := by
  set share := requestShare conns total with hshare
  have hw := fun w => workerRun_ok_spec clients f lats share w (fun i _ => hok w i)
  obtain ⟨hcnt, hsum⟩ := allMessages_ok_facts conns share clients f lats (fun w i _ => hok w i)
  refine ⟨?_, fun w _ => ?_⟩
  · rw [sum_filter_pos, hsum, hcnt]
  · rw [hw w]
    refine ⟨?_, okTrace_count_zero share 0, okTrace_concat_zero share 0⟩
    rw [sum_filter_pos, okTrace_sum]
    omega

theorem progress_channel_accounting_witness :
    ((allMessages (fun _ _ => Except.ok 200) (fun _ _ => 1) 2 (requestShare 2 5)).filter
        (fun n => decide (0 < n))).sum
      + (allMessages (fun _ _ => Except.ok 200) (fun _ _ => 1) 2 (requestShare 2 5)).count 0
      = 2 * requestShare 2 5 + 2 ∧
    ∀ w, w < 2 →
      (((workerRun (fun _ _ => Except.ok 200) (fun _ _ => 1) (requestShare 2 5) w).2.1).filter
          (fun n => decide (0 < n))).sum = requestShare 2 5 ∧
      ((workerRun (fun _ _ => Except.ok 200) (fun _ _ => 1) (requestShare 2 5) w).2.1).count 0 = 1 ∧
      ∃ t, (workerRun (fun _ _ => Except.ok 200) (fun _ _ => 1) (requestShare 2 5) w).2.1 = t ++ [0] :=
  progress_channel_accounting 2 5 (by omega) (fun _ _ => Except.ok 200) (fun _ _ => 200)
    (fun _ _ => 1) (fun _ _ => rfl)

/-!  Helper lemmas for the statistics pipeline: the streaming mean and
variance loops of `statrs` against their closed forms. -/

theorem ne_nil_length_cast_ne_zero (l : List ℚ) (h : l ≠ []) : (l.length : ℚ) ≠ 0 := by
  have hl : l.length ≠ 0 := fun hh => h (List.length_eq_zero.mp hh)
  exact_mod_cast hl

theorem foldl_meanStep_spec (ys : List ℚ) :
    ∀ p : List ℚ, p ≠ [] →
    ys.foldl meanStep ((p.length : ℚ), p.sum / (p.length : ℚ)) =
      (((p ++ ys).length : ℚ), (p ++ ys).sum / ((p ++ ys).length : ℚ)) := by
  induction ys with
  | nil => intro p _; simp
  | cons x ys ih =>
    intro p hp
    have hn : (p.length : ℚ) ≠ 0 := ne_nil_length_cast_ne_zero p hp
    have hn1 : (p.length : ℚ) + 1 ≠ 0 := by positivity
    have hstep : meanStep ((p.length : ℚ), p.sum / (p.length : ℚ)) x =
        (((p ++ [x]).length : ℚ), (p ++ [x]).sum / ((p ++ [x]).length : ℚ)) := by
      rw [meanStep, Prod.mk.injEq]
      constructor
      · simp only [List.length_append, List.length_cons, List.length_nil]
        push_cast
        ring
      · simp only [List.length_append, List.sum_append, List.length_cons, List.length_nil,
          List.sum_cons, List.sum_nil, add_zero]
        push_cast
        field_simp
        ring
    rw [List.foldl_cons, hstep, ih (p ++ [x]) (by simp)]
    simp [List.append_assoc]

theorem statrsMean_eq (xs : List ℚ) (h : xs ≠ []) :
    statrsMean xs = some (xs.sum / (xs.length : ℚ)) := by
  match xs with
  | x :: ys =>
    have hfirst : meanStep ((0 : ℚ), (0 : ℚ)) x =
        (([x].length : ℚ), [x].sum / ([x].length : ℚ)) := by
      rw [meanStep]
      norm_num
    have hfold := foldl_meanStep_spec ys [x] (by simp)
    rw [statrsMean, if_neg (by simp)]
    rw [List.foldl_cons, hfirst, hfold]
    simp

theorem devsq_expand (l : List ℚ) (μ : ℚ) :
    (l.map (fun x => (x - μ) ^ 2)).sum =
      (l.map (fun x => x ^ 2)).sum - 2 * μ * l.sum + (l.length : ℚ) * μ ^ 2 := by
  induction l with
  | nil => simp
  | cons x l ih =>
    simp only [List.map_cons, List.sum_cons, ih, List.length_cons]
    push_cast
    ring

theorem m2_eq_devsq (l : List ℚ) (h : l ≠ []) :
    m2 l = (l.map (fun x => (x - l.sum / (l.length : ℚ)) ^ 2)).sum := by
  have hn : (l.length : ℚ) ≠ 0 := ne_nil_length_cast_ne_zero l h
  rw [devsq_expand, m2]
  field_simp
  ring

theorem foldl_varStep_spec (ys : List ℚ) :
    ∀ p : List ℚ, p ≠ [] →
    ys.foldl varStep ((p.length : ℚ), p.sum, m2 p) =
      (((p ++ ys).length : ℚ), (p ++ ys).sum, m2 (p ++ ys)) := by
  induction ys with
  | nil => intro p _; simp
  | cons x ys ih =>
    intro p hp
    have hn : (p.length : ℚ) ≠ 0 := ne_nil_length_cast_ne_zero p hp
    have hn1 : (p.length : ℚ) + 1 ≠ 0 := by positivity
    have hstep : varStep ((p.length : ℚ), p.sum, m2 p) x =
        (((p ++ [x]).length : ℚ), (p ++ [x]).sum, m2 (p ++ [x])) := by
      have hc : ((p.length : ℚ) + 1) - 1 = (p.length : ℚ) := by ring
      simp only [varStep]
      rw [Prod.mk.injEq, Prod.mk.injEq]
      refine ⟨?_, by simp, ?_⟩
      · simp only [List.length_append, List.length_cons, List.length_nil]
        push_cast
        ring
      · rw [hc, m2, m2]
        simp only [List.map_append, List.sum_append, List.length_append, List.map_cons,
          List.map_nil, List.sum_cons, List.sum_nil, List.length_cons, List.length_nil,
          add_zero]
        push_cast
        field_simp
        ring
    rw [List.foldl_cons, hstep, ih (p ++ [x]) (by simp)]
    simp [List.append_assoc]

theorem statrsVariance_eq (xs : List ℚ) (h2 : 2 ≤ xs.length) :
    statrsVariance xs = some (sampleVariance xs) := by
  match xs, h2 with
  | [], h => simp at h
  | [x], h => simp at h
  | x :: y :: zs, _ =>
    have hm2x : m2 [x] = 0 := by
      rw [m2]
      norm_num
    have hstart : ((1 : ℚ), x, (0 : ℚ)) = (([x].length : ℚ), [x].sum, m2 [x]) := by
      rw [hm2x]
      norm_num
    have hfold := foldl_varStep_spec (y :: zs) [x] (by simp)
    rw [statrsVariance, hstart, hfold]
    rw [sampleVariance, ← m2_eq_devsq _ (by simp)]
    rfl

/-- C5 counterexample: for the latency group `{0 µs, 2000 µs}` the
population standard deviation (after the µs→ms division) is `1`, but the
code reports `√2`: `statrs`'s `variance()` divides by `n - 1`, not `n`. -/
theorem std_not_population_counterexample :
    (calculateStatistic 0 [0, 2000]).std ≠ some (specPopulationStd [0, 2000] / 1000) := by
  have hv : statrsVariance [0, 2000] = some 2000000 := by
    rw [statrsVariance_eq _ (by norm_num)]
    congr 1
    rw [sampleVariance]
    norm_num
  have hpop : specPopulationStd [0, 2000] = 1000 := by
    rw [specPopulationStd]
    norm_num
    rw [show ((1000000 : ℝ)) = 1000 ^ 2 by norm_num]
    exact Real.sqrt_sq (by norm_num)
  simp only [calculateStatistic, hv, Option.map_some']
  rw [hpop]
  intro h
  rw [Option.some.injEq] at h
  have hs : Real.sqrt ((2000000 : ℚ) : ℝ) = 1000 := by
    field_simp at h
    exact h
  have hsq := congrArg (fun t => t ^ 2) hs
  simp only at hsq
  rw [Real.sq_sqrt (by positivity)] at hsq
  norm_num at hsq

/-- C5 (amended): the reported `std_dev` is the Bessel-corrected *sample*
standard deviation — the square root of (sum of squared deviations from
the mean, divided by `n - 1`) — not the population standard deviation; a
group with fewer than two observations gets `NaN`. -/
theorem std_is_sample_std (status : ℕ) (xs : List ℚ) (h2 : 2 ≤ xs.length) :
    (calculateStatistic status xs).std = some (Real.sqrt (sampleVariance xs) / 1000) := by
  simp [calculateStatistic, statrsVariance_eq xs h2]

theorem std_is_sample_std_witness :
    (calculateStatistic 0 [0, 2000]).std = some (Real.sqrt (sampleVariance [0, 2000]) / 1000) :=
  std_is_sample_std 0 [0, 2000] (by norm_num)

/-!  Statistics of a constant latency group. -/

theorem foldl_min_replicate (L : ℚ) : ∀ n, (List.replicate n L).foldl min L = L
  | 0 => rfl
  | n + 1 => by
    rw [List.replicate_succ, List.foldl_cons, min_self]
    exact foldl_min_replicate L n

theorem foldl_max_replicate (L : ℚ) : ∀ n, (List.replicate n L).foldl max L = L
  | 0 => rfl
  | n + 1 => by
    rw [List.replicate_succ, List.foldl_cons, max_self]
    exact foldl_max_replicate L n

theorem statrsMin_replicate (k : ℕ) (hk : 1 ≤ k) (L : ℚ) :
    statrsMin (List.replicate k L) = some L := by
  match k, hk with
  | n + 1, _ =>
    rw [List.replicate_succ, statrsMin, foldl_min_replicate]

theorem statrsMax_replicate (k : ℕ) (hk : 1 ≤ k) (L : ℚ) :
    statrsMax (List.replicate k L) = some L := by
  match k, hk with
  | n + 1, _ =>
    rw [List.replicate_succ, statrsMax, foldl_max_replicate]

theorem cast_pos_of_one_le (k : ℕ) (hk : 1 ≤ k) : ((k : ℚ) ≠ 0) := by
  have : k ≠ 0 := by omega
  exact_mod_cast this

theorem statrsMean_replicate (k : ℕ) (hk : 1 ≤ k) (L : ℚ) :
    statrsMean (List.replicate k L) = some L := by
  rw [statrsMean_eq _ (by simp; omega)]
  rw [List.sum_replicate, nsmul_eq_mul, List.length_replicate]
  congr 1
  have hk0 := cast_pos_of_one_le k hk
  field_simp

theorem replicate_mean_eq (k : ℕ) (hk : 1 ≤ k) (L : ℚ) :
    (List.replicate k L).sum / ((List.replicate k L).length : ℚ) = L := by
  rw [List.sum_replicate, nsmul_eq_mul, List.length_replicate]
  have hk0 := cast_pos_of_one_le k hk
  field_simp

theorem sampleVariance_replicate (k : ℕ) (hk : 1 ≤ k) (L : ℚ) :
    sampleVariance (List.replicate k L) = 0 := by
  rw [sampleVariance]
  have hmean := replicate_mean_eq k hk L
  rw [List.map_replicate]
  rw [show (L - (List.replicate k L).sum / ((List.replicate k L).length : ℚ)) ^ 2 = 0 by
    rw [hmean]; ring]
  rw [List.sum_replicate, smul_zero, zero_div]

/-!  The R-8 quantile estimator. -/

/-- `statrsQuantile` with its `let` bindings expanded, for rewriting. -/
theorem statrsQuantile_eq_def (xs : List ℚ) (tau : ℚ) :
    statrsQuantile xs tau =
      if xs.isEmpty ∨ tau < 0 ∨ 1 < tau then none
      else
        if (⌊((xs.length : ℚ) + 1 / 3) * tau + 1 / 3⌋ : ℤ) ≤ 0 ∨ tau = 0 then
          some ((sortedData xs).headD 0)
        else if (xs.length : ℤ) ≤ ⌊((xs.length : ℚ) + 1 / 3) * tau + 1 / 3⌋ ∨ tau = 1 then
          some ((sortedData xs).getLastD 0)
        else
          some ((sortedData xs).getD ((⌊((xs.length : ℚ) + 1 / 3) * tau + 1 / 3⌋).toNat - 1) 0 +
            (((xs.length : ℚ) + 1 / 3) * tau + 1 / 3 -
              ((⌊((xs.length : ℚ) + 1 / 3) * tau + 1 / 3⌋ : ℤ) : ℚ)) *
            ((sortedData xs).getD (⌊((xs.length : ℚ) + 1 / 3) * tau + 1 / 3⌋).toNat 0 -
             (sortedData xs).getD ((⌊((xs.length : ℚ) + 1 / 3) * tau + 1 / 3⌋).toNat - 1) 0)) :=
  rfl

theorem sortedData_sorted (xs : List ℚ) : (sortedData xs).Sorted (· ≤ ·) :=
  List.sorted_insertionSort _ xs

theorem sortedData_length (xs : List ℚ) : (sortedData xs).length = xs.length :=
  (List.perm_insertionSort _ xs).length_eq

theorem sortedData_replicate (k : ℕ) (L : ℚ) :
    sortedData (List.replicate k L) = List.replicate k L :=
  List.eq_of_perm_of_sorted (List.perm_insertionSort _ _)
    (List.sorted_insertionSort _ _)
    (List.pairwise_replicate.mpr (Or.inr le_rfl))

theorem statrsQuantile_replicate (k : ℕ) (hk : 1 ≤ k) (L : ℚ) (tau : ℚ)
    (h0 : 0 ≤ tau) (h1 : tau ≤ 1) :
    statrsQuantile (List.replicate k L) tau = some L := by
  obtain ⟨n, rfl⟩ : ∃ n, k = n + 1 := ⟨k - 1, by omega⟩
  rw [statrsQuantile_eq_def]
  rw [if_neg (by
    push_neg
    refine ⟨?_, by linarith, by linarith⟩
    simp [List.isEmpty_iff])]
  have hget : ∀ i, i < n + 1 → (List.replicate (n + 1) L).getD i 0 = L := by
    intro i hi
    simp [List.getD_eq_getElem?_getD, List.getElem?_replicate, hi]
  rw [sortedData_replicate]
  split_ifs with hA hB
  · rw [List.replicate_succ]
    simp
  · rw [List.replicate_succ', List.getLastD_concat]
  · push_neg at hA hB
    obtain ⟨hA1, -⟩ := hA
    obtain ⟨hB1, -⟩ := hB
    simp only [List.length_replicate] at hA1 hB1 ⊢
    rw [hget _ (by omega), hget _ (by omega)]
    ring_nf

/-- C9 counterexample: the claim includes `k = 1`, but a group with a
single observation has `std_dev = NaN` (the `statrs` sample variance is
undefined below two samples), not `0`. -/
theorem replicate_one_std_not_zero :
    (calculateStatistic 200 (List.replicate 1 (5 : ℚ))).std ≠ some 0 := by
  simp [calculateStatistic, statrsVariance]

/-- C9 (amended): for every `k ≥ 2`, a status-code group consisting of a
latency `L` repeated `k` times yields `min = max = mean = p90 = p99`
(each the common value `L`, in the report's ms unit) and `std_dev = 0`;
for `k = 1` every statistic except `std_dev` still equals `L`, but
`std_dev` is `NaN`. -/
theorem replicate_group_statistics (k : ℕ) (L : ℚ) (hk : 2 ≤ k) :
    (calculateStatistic 200 (List.replicate k L)).min = some (L / 1000) ∧
    (calculateStatistic 200 (List.replicate k L)).max = some (L / 1000) ∧
    (calculateStatistic 200 (List.replicate k L)).mean = some (L / 1000) ∧
    (calculateStatistic 200 (List.replicate k L)).p90 = some (L / 1000) ∧
    (calculateStatistic 200 (List.replicate k L)).p99 = some (L / 1000) ∧
    (calculateStatistic 200 (List.replicate k L)).std = some 0 ∧
    (calculateStatistic 200 (List.replicate 1 L)).min = some (L / 1000) ∧
    (calculateStatistic 200 (List.replicate 1 L)).max = some (L / 1000) ∧
    (calculateStatistic 200 (List.replicate 1 L)).mean = some (L / 1000) ∧
    (calculateStatistic 200 (List.replicate 1 L)).p90 = some (L / 1000) ∧
    (calculateStatistic 200 (List.replicate 1 L)).p99 = some (L / 1000) ∧
    (calculateStatistic 200 (List.replicate 1 L)).std = none := by
  have hk1 : 1 ≤ k := by omega
  have h90 := fun m hm => statrsQuantile_replicate m hm L ((90 : ℚ) / 100)
    (by norm_num) (by norm_num)
  have h99 := fun m hm => statrsQuantile_replicate m hm L ((99 : ℚ) / 100)
    (by norm_num) (by norm_num)
  have h90one : statrsQuantile [L] ((90 : ℚ) / 100) = some L := by
    simpa using h90 1 le_rfl
  have h99one : statrsQuantile [L] ((99 : ℚ) / 100) = some L := by
    simpa using h99 1 le_rfl
  have hmeanone : statrsMean [L] = some L := by
    simpa using statrsMean_replicate 1 le_rfl L
  refine ⟨?_, ?_, ?_, ?_, ?_, ?_, ?_, ?_, ?_, ?_, ?_, ?_⟩
  · simp [calculateStatistic, statrsMin_replicate k hk1 L]
  · simp [calculateStatistic, statrsMax_replicate k hk1 L]
  · simp [calculateStatistic, statrsMean_replicate k hk1 L]
  · simp [calculateStatistic, statrsPercentile, h90 k hk1]
  · simp [calculateStatistic, statrsPercentile, h99 k hk1]
  · rw [calculateStatistic]
    rw [statrsVariance_eq _ (by simp [List.length_replicate]; omega),
      sampleVariance_replicate k hk1 L]
    simp [Real.sqrt_zero]
  · simp [calculateStatistic, statrsMin]
  · simp [calculateStatistic, statrsMax]
  · simp [calculateStatistic, hmeanone]
  · simp [calculateStatistic, statrsPercentile, h90one]
  · simp [calculateStatistic, statrsPercentile, h99one]
  · simp [calculateStatistic, statrsVariance]

theorem replicate_group_statistics_witness :
    (calculateStatistic 200 (List.replicate 3 (7 : ℚ))).min = some (7 / 1000) ∧
    (calculateStatistic 200 (List.replicate 3 (7 : ℚ))).max = some (7 / 1000) ∧
    (calculateStatistic 200 (List.replicate 3 (7 : ℚ))).mean = some (7 / 1000) ∧
    (calculateStatistic 200 (List.replicate 3 (7 : ℚ))).p90 = some (7 / 1000) ∧
    (calculateStatistic 200 (List.replicate 3 (7 : ℚ))).p99 = some (7 / 1000) ∧
    (calculateStatistic 200 (List.replicate 3 (7 : ℚ))).std = some 0 ∧
    (calculateStatistic 200 (List.replicate 1 (7 : ℚ))).min = some (7 / 1000) ∧
    (calculateStatistic 200 (List.replicate 1 (7 : ℚ))).max = some (7 / 1000) ∧
    (calculateStatistic 200 (List.replicate 1 (7 : ℚ))).mean = some (7 / 1000) ∧
    (calculateStatistic 200 (List.replicate 1 (7 : ℚ))).p90 = some (7 / 1000) ∧
    (calculateStatistic 200 (List.replicate 1 (7 : ℚ))).p99 = some (7 / 1000) ∧
    (calculateStatistic 200 (List.replicate 1 (7 : ℚ))).std = none :=
  replicate_group_statistics 3 7 (by omega)

/-- C4 counterexample: for the 7-element group `{0,0,0,0,0,0,3000}` (µs)
nearest-rank selection at `⌊0.9·7⌋ = 6` gives `3000` µs = `3` ms, but the
code's R-8 estimator interpolates between the 6th and 7th order statistic
(`h = (7+1/3)·0.9+1/3 = 104/15`) and reports `2800` µs = `2.8` ms. -/
theorem percentile_interpolates_counterexample :
    (calculateStatistic 200 [0, 0, 0, 0, 0, 0, 3000]).p90 ≠
      (specNearestRank [0, 0, 0, 0, 0, 0, 3000] ((90 : ℚ) / 100)).map (· / 1000) := by
  have hsort : sortedData [0, 0, 0, 0, 0, 0, 3000] = [0, 0, 0, 0, 0, 0, 3000] := by
    refine List.eq_of_perm_of_sorted (List.perm_insertionSort _ _)
      (List.sorted_insertionSort _ _) ?_
    simp [List.sorted_cons]
  have hq : statrsQuantile [0, 0, 0, 0, 0, 0, 3000] (((90 : ℕ) : ℚ) / 100) = some 2800 := by
    rw [statrsQuantile_eq_def, hsort]
    have hfl : ⌊((([0, 0, 0, 0, 0, 0, 3000] : List ℚ).length : ℚ) + 1 / 3) *
        (((90 : ℕ) : ℚ) / 100) + 1 / 3⌋ = (6 : ℤ) := by
      have harg : ((([0, 0, 0, 0, 0, 0, 3000] : List ℚ).length : ℚ) + 1 / 3) *
          (((90 : ℕ) : ℚ) / 100) + 1 / 3 = 104 / 15 := by
        norm_num
      rw [harg, Int.floor_eq_iff]
      norm_num
    rw [hfl]
    rw [if_neg (by norm_num), if_neg (by norm_num), if_neg (by norm_num)]
    have ht : ((6 : ℤ).toNat) = 6 := rfl
    rw [ht]
    have h5 : ([0, 0, 0, 0, 0, 0, 3000] : List ℚ).getD (6 - 1) 0 = 0 := rfl
    have h6 : ([0, 0, 0, 0, 0, 0, 3000] : List ℚ).getD 6 0 = 3000 := rfl
    rw [h5, h6]
    norm_num
  have hnr : specNearestRank [0, 0, 0, 0, 0, 0, 3000] ((90 : ℚ) / 100) = some 3000 := by
    rw [specNearestRank, if_neg (by norm_num), hsort]
    have hfl2 : ⌊(90 : ℚ) / 100 * (([0, 0, 0, 0, 0, 0, 3000] : List ℚ).length : ℚ)⌋ = (6 : ℤ) := by
      have harg : (90 : ℚ) / 100 * (([0, 0, 0, 0, 0, 0, 3000] : List ℚ).length : ℚ) = 63 / 10 := by
        norm_num
      rw [harg, Int.floor_eq_iff]
      norm_num
    rw [hfl2]
    rfl
  simp only [calculateStatistic, statrsPercentile, hq, hnr, Option.map_some']
  intro h
  rw [Option.some.injEq] at h
  norm_num at h

theorem headD_eq_getD_zero (s : List ℚ) (h : s ≠ []) : s.headD 0 = s.getD 0 0 := by
  match s, h with
  | a :: t, _ => rfl

theorem getLastD_eq_getD_pred (s : List ℚ) (h : s ≠ []) :
    s.getLastD 0 = s.getD (s.length - 1) 0 := by
  have hpos : 0 < s.length := List.length_pos.mpr h
  rw [List.getLastD_eq_getLast?, List.getLast?_eq_getLast s h, Option.getD_some,
    List.getLast_eq_getElem]
  rw [List.getD_eq_getElem?_getD, List.getElem?_eq_getElem (by omega)]
  rfl

theorem sorted_getD_mono (s : List ℚ) (hs : s.Sorted (· ≤ ·)) (i j : ℕ) (hij : i ≤ j)
    (hj : j < s.length) : s.getD i 0 ≤ s.getD j 0 := by
  have hi : i < s.length := lt_of_le_of_lt hij hj
  rw [List.getD_eq_getElem?_getD, List.getD_eq_getElem?_getD,
    List.getElem?_eq_getElem hi, List.getElem?_eq_getElem hj, Option.getD_some, Option.getD_some]
  have hle : (⟨i, hi⟩ : Fin s.length) ≤ ⟨j, hj⟩ := hij
  have := hs.rel_get_of_le hle
  simpa [List.get_eq_getElem] using this

/-- The R-8 quantile always lands between the smallest and largest
observation: the two clamping branches return them outright, and the
interpolation `a + (h - ⌊h⌋)·(b - a)` stays between the adjacent order
statistics `a ≤ b` because `0 ≤ h - ⌊h⌋ ≤ 1`. -/
theorem statrsQuantile_bounds (xs : List ℚ) (hne : xs ≠ []) (tau : ℚ)
    (h0 : 0 ≤ tau) (h1 : tau ≤ 1) :
    ∃ q, statrsQuantile xs tau = some q ∧
      (sortedData xs).headD 0 ≤ q ∧ q ≤ (sortedData xs).getLastD 0 := by
  have hslen : (sortedData xs).length = xs.length := sortedData_length xs
  have hlen1 : 0 < xs.length := List.length_pos.mpr hne
  have hsne : sortedData xs ≠ [] := by
    intro hh
    rw [hh] at hslen
    simp at hslen
    omega
  have hs := sortedData_sorted xs
  have hhead : (sortedData xs).headD 0 = (sortedData xs).getD 0 0 := headD_eq_getD_zero _ hsne
  have hlast : (sortedData xs).getLastD 0 = (sortedData xs).getD (xs.length - 1) 0 := by
    rw [getLastD_eq_getD_pred _ hsne, hslen]
  have hmono := sorted_getD_mono (sortedData xs) hs
  have hminmax : (sortedData xs).headD 0 ≤ (sortedData xs).getLastD 0 := by
    rw [hhead, hlast]
    exact hmono 0 (xs.length - 1) (by omega) (by omega)
  rw [statrsQuantile_eq_def]
  rw [if_neg (by
    push_neg
    refine ⟨?_, by linarith, by linarith⟩
    simpa [List.isEmpty_iff] using hne)]
  split_ifs with hA hB
  · exact ⟨_, rfl, le_refl _, hminmax⟩
  · exact ⟨_, rfl, hminmax, le_refl _⟩
  · push_neg at hA hB
    obtain ⟨hA1, -⟩ := hA
    obtain ⟨hB1, -⟩ := hB
    set H : ℚ := ((xs.length : ℚ) + 1 / 3) * tau + 1 / 3 with hH
    set F : ℤ := ⌊H⌋ with hF
    have hfr0 : 0 ≤ H - (F : ℚ) := sub_nonneg.mpr (Int.floor_le H)
    have hfr1 : H - (F : ℚ) ≤ 1 := by
      have := Int.lt_floor_add_one H
      rw [← hF] at this
      linarith
    have hidxb : F.toNat < (sortedData xs).length := by
      rw [hslen]
      omega
    have hab : (sortedData xs).getD (F.toNat - 1) 0 ≤ (sortedData xs).getD F.toNat 0 :=
      hmono _ _ (by omega) hidxb
    refine ⟨_, rfl, ?_, ?_⟩
    · rw [hhead]
      have hha : (sortedData xs).getD 0 0 ≤ (sortedData xs).getD (F.toNat - 1) 0 :=
        hmono 0 (F.toNat - 1) (by omega) (by rw [hslen]; omega)
      have hprod : 0 ≤ (H - (F : ℚ)) * ((sortedData xs).getD F.toNat 0 -
          (sortedData xs).getD (F.toNat - 1) 0) :=
        mul_nonneg hfr0 (sub_nonneg.mpr hab)
      linarith
    · rw [hlast]
      have hbl : (sortedData xs).getD F.toNat 0 ≤ (sortedData xs).getD (xs.length - 1) 0 :=
        hmono F.toNat (xs.length - 1) (by omega) (by rw [hslen]; omega)
      have hprod : (H - (F : ℚ)) * ((sortedData xs).getD F.toNat 0 -
            (sortedData xs).getD (F.toNat - 1) 0) ≤
          (sortedData xs).getD F.toNat 0 - (sortedData xs).getD (F.toNat - 1) 0 :=
        mul_le_of_le_one_left (sub_nonneg.mpr hab) hfr1
      linarith

/-- C4 (amended): the 90th and 99th percentiles are computed by `statrs`'s
R-8 quantile estimator — rank `h = (n + 1/3)·f + 1/3` with linear
interpolation between the two adjacent sorted values, clamped to the
group's smallest/largest observation — rather than by nearest-rank
selection at `⌊f·n⌋`; the reported value always lies between the group's
minimum and maximum, and a group with a single observation still yields
that single value for every percentile. -/
theorem percentile_r8_spec (status : ℕ) (xs : List ℚ) (hne : xs ≠ []) :
    (∃ q, (calculateStatistic status xs).p90 = some (q / 1000) ∧
      (sortedData xs).headD 0 ≤ q ∧ q ≤ (sortedData xs).getLastD 0) ∧
    (∃ q, (calculateStatistic status xs).p99 = some (q / 1000) ∧
      (sortedData xs).headD 0 ≤ q ∧ q ≤ (sortedData xs).getLastD 0) ∧
    ∀ L : ℚ, (calculateStatistic status [L]).p90 = some (L / 1000) ∧
      (calculateStatistic status [L]).p99 = some (L / 1000) := by
  refine ⟨?_, ?_, ?_⟩
  · obtain ⟨q, hq, hb1, hb2⟩ := statrsQuantile_bounds xs hne ((90 : ℚ) / 100)
      (by norm_num) (by norm_num)
    exact ⟨q, by simp [calculateStatistic, statrsPercentile, hq], hb1, hb2⟩
  · obtain ⟨q, hq, hb1, hb2⟩ := statrsQuantile_bounds xs hne ((99 : ℚ) / 100)
      (by norm_num) (by norm_num)
    exact ⟨q, by simp [calculateStatistic, statrsPercentile, hq], hb1, hb2⟩
  · intro L
    have h90 : statrsQuantile [L] ((90 : ℚ) / 100) = some L := by
      simpa using statrsQuantile_replicate 1 le_rfl L ((90 : ℚ) / 100)
        (by norm_num) (by norm_num)
    have h99 : statrsQuantile [L] ((99 : ℚ) / 100) = some L := by
      simpa using statrsQuantile_replicate 1 le_rfl L ((99 : ℚ) / 100)
        (by norm_num) (by norm_num)
    exact ⟨by simp [calculateStatistic, statrsPercentile, h90],
      by simp [calculateStatistic, statrsPercentile, h99]⟩

theorem percentile_r8_spec_witness :
    (∃ q, (calculateStatistic 200 [0, 0, 0, 0, 0, 0, 3000]).p90 = some (q / 1000) ∧
      (sortedData [0, 0, 0, 0, 0, 0, 3000]).headD 0 ≤ q ∧
      q ≤ (sortedData [0, 0, 0, 0, 0, 0, 3000]).getLastD 0) ∧
    (∃ q, (calculateStatistic 200 [0, 0, 0, 0, 0, 0, 3000]).p99 = some (q / 1000) ∧
      (sortedData [0, 0, 0, 0, 0, 0, 3000]).headD 0 ≤ q ∧
      q ≤ (sortedData [0, 0, 0, 0, 0, 0, 3000]).getLastD 0) ∧
    ∀ L : ℚ, (calculateStatistic 200 [L]).p90 = some (L / 1000) ∧
      (calculateStatistic 200 [L]).p99 = some (L / 1000) :=
  percentile_r8_spec 200 [0, 0, 0, 0, 0, 0, 3000] (by simp)

end LoadTest
